import Mathlib

/-!
# Verification of `combine_pdf.py` (PDF merger TUI)

A shallow embedding of the core of `src/combine_pdf.py`: the paste
tokenizer, the working-directory tracking, the ordered collection of
document paths with its swap-based reordering, JSON list persistence,
and the merge pipeline.  External collaborators (the `re` module, the
POSIX filesystem, the `pypdf` codec, Python file I/O and the `json`
module) are modelled as explicit oracles/parameters, following their
documented semantics; the functions of the program itself are
translated line by line from the source.
-/

namespace CombinePdf

/-- The fixed persistence file name (`JSON_FILE = "combine_pdf.json"`). -/
def JSON_FILE : String := "combine_pdf.json"

/-! ## Path Tokenizer

`on_paste` tokenizes the pasted text with
`re.findall(r'"([^\"]+)"|(\S+)', txt)` and keeps `q or u` per match.
Python's `re` scans left to right; at each position the quoted
alternative `"([^"]+)"` is tried before the unquoted `\S+`, and the
first alternative that matches wins.  We embed this scan directly on
the character list.  `isPySpace` models `\s` on the ASCII range (the
whitespace characters relevant to path input); `\S` is its negation. -/

/-- Model of Python's regex class `\s` (ASCII range). -/
def isPySpace (c : Char) : Bool :=
  c = ' ' || c = '\t' || c = '\n' || c = '\r' || c = '\x0b' || c = '\x0c'

/-- A token produced by the scan, remembering which alternative matched. -/
inductive Tok where
  | quoted (s : String)
  | unquoted (s : String)
deriving DecidableEq, Repr

/-- The string the Python code keeps for a match (`q or u`). -/
def Tok.text : Tok → String
  | .quoted s => s
  | .unquoted s => s

/-- Scan for the closing `"` : `takeToQuote cs = some (content, rest)`
iff `cs = content ++ '"' :: rest` with `content` quote-free.  This is
the greedy match of `([^"]+)"` (the quote after the capture), minus the
non-emptiness requirement which the caller checks. -/
def takeToQuote : List Char → Option (List Char × List Char)
  | [] => none
  | c :: cs =>
    if c = '"' then some ([], cs)
    else
      match takeToQuote cs with
      | some (content, rest) => some (c :: content, rest)
      | none => none

theorem takeToQuote_length : ∀ (cs content rest : List Char),
    takeToQuote cs = some (content, rest) → rest.length < cs.length := by
  intro cs
  induction cs with
  | nil => intro content rest h; simp [takeToQuote] at h
  | cons c cs ih =>
    intro content rest h
    by_cases hc : c = '"'
    · simp [takeToQuote, hc] at h
      simp [← h.2]
    · simp only [takeToQuote, hc, if_false] at h
      cases htq : takeToQuote cs with
      | none => rw [htq] at h; simp at h
      | some p =>
        rw [htq] at h
        simp at h
        have := ih p.1 p.2 (by rw [htq])
        have hr : rest = p.2 := by rw [← h.2]
        simp [hr, List.length_cons]
        omega

theorem takeToQuote_spec : ∀ (cs content rest : List Char),
    takeToQuote cs = some (content, rest) →
    cs = content ++ '"' :: rest ∧ '"' ∉ content := by
  intro cs
  induction cs with
  | nil => intro content rest h; simp [takeToQuote] at h
  | cons c cs ih =>
    intro content rest h
    by_cases hc : c = '"'
    · simp [takeToQuote, hc] at h
      refine ⟨?_, ?_⟩
      · simp [← h.1, ← h.2, hc]
      · simp [h.1]
    · simp only [takeToQuote, hc, if_false] at h
      cases htq : takeToQuote cs with
      | none => rw [htq] at h; simp at h
      | some p =>
        rw [htq] at h
        simp at h
        obtain ⟨hcs, hnotin⟩ := ih p.1 p.2 (by rw [htq])
        constructor
        · rw [← h.1, ← h.2]; simp [hcs]
        · rw [← h.1]
          simp [hnotin]
          exact fun hq => hc hq.symm

theorem length_dropWhile_nonspace_lt (c : Char) (cs : List Char)
    (h : isPySpace c = false) :
    (List.dropWhile (fun x => !isPySpace x) (c :: cs)).length < (c :: cs).length := by
  have hp : (fun x => !isPySpace x) c = true := by simp [h]
  rw [List.dropWhile_cons]
  simp only [hp, if_true, List.length_cons]
  exact Nat.lt_succ_of_le (List.dropWhile_suffix _).length_le

/-- One regex scan step of `re.findall(r'"([^\"]+)"|(\S+)', txt)`:
at each position try the quoted alternative first, then the unquoted
maximal `\S+` run; positions matching neither (whitespace) are skipped. -/
def tokenizeAux (l : List Char) : List Tok :=
  match h : l with
  | [] => []
  | c :: cs =>
    if hq : c = '"' then
      match htq : takeToQuote cs with
      | some (content, rest) =>
        if content.isEmpty then
          Tok.unquoted ⟨(c :: cs).takeWhile (fun x => !isPySpace x)⟩ ::
            tokenizeAux ((c :: cs).dropWhile (fun x => !isPySpace x))
        else
          Tok.quoted ⟨content⟩ :: tokenizeAux rest
      | none =>
        Tok.unquoted ⟨(c :: cs).takeWhile (fun x => !isPySpace x)⟩ ::
          tokenizeAux ((c :: cs).dropWhile (fun x => !isPySpace x))
    else if isPySpace c then
      tokenizeAux cs
    else
      Tok.unquoted ⟨(c :: cs).takeWhile (fun x => !isPySpace x)⟩ ::
        tokenizeAux ((c :: cs).dropWhile (fun x => !isPySpace x))
  termination_by l.length
  decreasing_by
  all_goals subst h
  all_goals first
    | exact Nat.lt_succ_of_lt (takeToQuote_length cs content rest htq)
    | exact Nat.lt_succ_self cs.length
    | exact length_dropWhile_nonspace_lt c cs
        (by first | (rw [hq]; decide) | simp_all)

/-- Python's `str.strip()`: drop leading and trailing whitespace
(char-level model, same ASCII whitespace set as `isPySpace`). -/
def pyStrip (l : List Char) : List Char :=
  ((l.dropWhile isPySpace).reverse.dropWhile isPySpace).reverse

/-- `txt = event.text.strip()` followed by
`tokens = [q or u for q, u in re.findall(pattern, txt)]`. -/
def pyTokens (txt : String) : List String :=
  (tokenizeAux (pyStrip txt.data)).map Tok.text

/-! ## Paths and the filesystem oracle

`os.path.isabs`, `os.path.abspath`, `os.path.basename` and `os.chdir`
are external (POSIX) collaborators.  `abspath` is modelled as
`os.path.join(cwd, p)` for a relative `p` and as `p` itself for an
absolute `p`; the `normpath` collapsing of `.`/`..` segments is not
modelled, which is faithful for everything the claims use (absoluteness
of results and which entries are appended).  Directory existence is an
oracle `isDirAbs` on absolute paths; `os.path.isdir t` for a possibly
relative `t` consults it at `abspath cwd t`, and `os.chdir t` followed
by `os.getcwd()` yields `abspath cwd t`. -/

/-- `os.path.isabs` (POSIX): the path begins with `/`. -/
def isAbs (p : String) : Bool :=
  match p.data with
  | [] => false
  | c :: _ => c = '/'

/-- `os.path.abspath` relative to a current working directory
(normpath collapsing omitted, see section comment). -/
def abspath (cwd p : String) : String :=
  if isAbs p then p else cwd ++ "/" ++ p

/-- `os.path.basename` (POSIX): the part after the last `/`. -/
def basename (p : String) : String :=
  (p.splitOn "/").getLast!

/-- `p.lower().endswith(".pdf")` — the document filter of `on_paste`
(char-level model of the lowering and suffix test, ASCII lowering). -/
def isPdfName (p : String) : Bool :=
  List.isSuffixOf ['.', 'p', 'd', 'f'] (p.data.map Char.toLower)

/-- The state `on_paste` touches: the process working directory
(`os.chdir` / reactive `cwd`) and the ordered collection `files`. -/
structure PasteState where
  cwd : String
  files : List String
deriving DecidableEq, Repr

/-- `on_paste` (src/combine_pdf.py lines 92–112), with the filesystem
directory oracle `isDirAbs` as parameter:
tokenize `event.text.strip()`; return if no tokens; collect the tokens
naming existing directories, `chdir` to the last one and drop all of
them from the token stream; filter the rest to `.pdf` names
(case-insensitively); append their absolute forms — resolved against
the working directory *after* the `chdir` — to `files`. -/
def on_paste (isDirAbs : String → Bool) (txt : String) (st : PasteState) :
    PasteState :=
  let tokens := pyTokens txt
  if tokens.isEmpty then st
  else
    let dir_tokens := tokens.filter (fun t => isDirAbs (abspath st.cwd t))
    let cwd' := match dir_tokens.getLast? with
      | some d => abspath st.cwd d
      | none => st.cwd
    let tokens' := if dir_tokens.isEmpty then tokens
      else tokens.filter (fun t => !dir_tokens.contains t)
    let new := tokens'.filter isPdfName
    { cwd := cwd', files := st.files ++ new.map (abspath cwd') }

/-! ## Reorder (`action_move_up` / `action_move_down`)

`lv.index` is `Optional[int]` (it is `None` when the list is empty /
nothing is selected).  The comparisons `i > 0` and
`i < len(self.files) - 1` raise `TypeError` in Python 3 when `i` is
`None`; the swap
`self.files[i-1], self.files[i] = self.files[i], self.files[i-1]`
evaluates the right-hand tuple first and then assigns the two targets
left to right, with Python's negative-index wrap-around and an
`IndexError` outside `[-len, len)`.  A raising path is modelled as
`PyResult.exn`. -/

/-- Result of a Python statement that may raise. -/
inductive PyResult (α : Type) where
  | ok (a : α)
  | exn (msg : String)
deriving DecidableEq, Repr

/-- Python sequence index resolution: non-negative indices are used
as-is, negative ones wrap by adding the length, anything else raises. -/
def pyIdx (n : Nat) (i : Int) : Option Nat :=
  if 0 ≤ i then (if i < (n : Int) then some i.toNat else none)
  else (if -(n : Int) ≤ i then some (i + (n : Int)).toNat else none)

/-- Python `l[i]` read. -/
def pyGet (l : List String) (i : Int) : Option String :=
  (pyIdx l.length i).bind fun k => l.get? k

/-- Python `l[i] = v` write. -/
def pySet (l : List String) (i : Int) (v : String) : Option (List String) :=
  (pyIdx l.length i).map fun k => l.set k v

/-- The tuple swap `files[a], files[b] = files[b], files[a]`:
read the right-hand pair, then assign `files[a]` and `files[b]` in
that order. -/
def pySwap (files : List String) (a b : Int) : PyResult (List String) :=
  match pyGet files b, pyGet files a with
  | some vb, some va =>
    match pySet files a vb with
    | some f1 =>
      match pySet f1 b va with
      | some f2 => .ok f2
      | none => .exn "IndexError: list assignment index out of range"
    | none => .exn "IndexError: list assignment index out of range"
  | _, _ => .exn "IndexError: list index out of range"

/-- `action_move_up` (lines 115–120): with selected index `i`, if
`i > 0` swap entries `i-1` and `i` and select `i-1`; otherwise leave
everything unchanged.  `i = None` raises at the comparison `i > 0`. -/
def action_move_up (files : List String) :
    Option Int → PyResult (List String × Option Int)
  | none =>
    .exn "TypeError: > not supported between instances of NoneType and int"
  | some i =>
    if 0 < i then
      match pySwap files (i - 1) i with
      | .ok f2 => .ok (f2, some (i - 1))
      | .exn m => .exn m
    else .ok (files, some i)

/-- `action_move_down` (lines 122–127): with selected index `i`, if
`i < len(files) - 1` swap entries `i` and `i+1` and select `i+1`;
otherwise leave everything unchanged.  `i = None` raises at the
comparison. -/
def action_move_down (files : List String) :
    Option Int → PyResult (List String × Option Int)
  | none =>
    .exn "TypeError: < not supported between instances of NoneType and int"
  | some i =>
    if i < (files.length : Int) - 1 then
      match pySwap files (i + 1) i with
      | .ok f2 => .ok (f2, some (i + 1))
      | .exn m => .exn m
    else .ok (files, some i)

/-! ## Persistence (`action_save_list` / `action_load_list`)

The persisted list file holds a JSON array of path strings (the
PersistedList interface).  `open`+`json.load` / `json.dump` are
external collaborators; the parsed content of the file at `JSON_FILE`
in the current working directory is modelled by `FileRead`:
`missing` (the `open` in `action_load_list` raises `OSError`),
`notJson` (`json.load` raises `JSONDecodeError`) — both caught by the
`except` clause — or `arr l`, a parsed JSON array of strings.  (Valid
JSON that is not an array of strings is outside the PersistedList
interface and outside every claim, and is not modelled.)  Existence of
an individual path on disk is the oracle `pathExists`
(`os.path.exists`). -/

/-- Parsed content of the persisted list file as seen by `json.load`. -/
inductive FileRead where
  | missing
  | notJson
  | arr (l : List String)
deriving DecidableEq, Repr

/-- `action_save_list` (lines 130–138): dump `files` as a JSON array to
`JSON_FILE`, overwriting it; on an I/O error (oracle `writeOk = false`)
the file is left as it was and the status reports the error.  Returns
the new file content and the button status text. -/
def action_save_list (writeOk : Bool) (files : List String)
    (stored : FileRead) : FileRead × String :=
  if writeOk then (.arr files, "Saved: " ++ JSON_FILE)
  else (stored, "Save err: [Errno 13] Permission denied")

/-- `action_load_list` (lines 140–157): read and parse `JSON_FILE`; on
an open/parse error report it and keep `files`; otherwise collect the
listed paths that do not exist — if any, report the base name of the
first and keep `files`; otherwise replace the collection with the full
loaded list.  Returns the new collection and the button status text. -/
def action_load_list (content : FileRead) (pathExists : String → Bool)
    (files : List String) : List String × String :=
  match content with
  | .missing =>
    (files, "Load err: [Errno 2] No such file or directory: " ++ JSON_FILE)
  | .notJson => (files, "Load err: Expecting value: line 1 column 1 (char 0)")
  | .arr loaded =>
    match loaded.filter (fun p => !pathExists p) with
    | [] => (loaded, "Loaded: " ++ JSON_FILE)
    | m :: _ => (files, "Missing: " ++ basename m)

/-! ## Merge pipeline (`action_merge` / `_do_merge`)

`_do_merge` runs over a snapshot (`self.files.copy()`): it opens each
path with `PdfReader` and appends each of its pages in order to a
`PdfWriter`, then serializes the writer to a freshly named output file.
The `pypdf` codec is the oracle `readDoc : String → Except String
(List α)` (pages of a readable document, in native order, or the
raised exception's description); pages are opaque (`α`).  The final
`open(out, "wb")` / `writer.write(f)` step is the oracle
`WriteOutcome`: `success` writes all pages; `openFail` raises before
the file is created; `failAfter k` raises after `open` has created the
file and `k` pages' worth of data have been flushed — the `except`
clause reports the error and the partially written file is not
removed.  The disk is the list of output files present, name ↦ pages. -/

/-- Outcome of the output-write step, as an environment oracle. -/
inductive WriteOutcome where
  | success
  | openFail (msg : String)
  | failAfter (k : Nat) (msg : String)
deriving DecidableEq, Repr

/-- Terminal outcome of one merge job, as reported by
`_merge_finished`. -/
inductive MergeResult (α : Type) where
  | completed (out : String)
  | failed (msg : String)
deriving DecidableEq, Repr

/-- The read loop of `_do_merge` (lines 171–174): for each path open it
and append its pages, in order, to the accumulator; the first raised
exception aborts the loop. -/
def accumulate (readDoc : String → Except String (List α)) :
    List String → Except String (List α)
  | [] => .ok []
  | p :: ps =>
    match readDoc p with
    | .error e => .error e
    | .ok pgs =>
      match accumulate readDoc ps with
      | .error e => .error e
      | .ok rest => .ok (pgs ++ rest)

/-- `_do_merge` (lines 168–181, named without the leading underscore):
accumulate all pages, then write them to the output file
`combined-<timestamp>.pdf` (`outName`); any raised exception is caught
and reported as the failure description.  Returns the reported result
and the disk after the job. -/
def do_merge (readDoc : String → Except String (List α)) (w : WriteOutcome)
    (outName : String) (pdf_paths : List String)
    (disk : List (String × List α)) :
    MergeResult α × List (String × List α) :=
  match accumulate readDoc pdf_paths with
  | .error e => (.failed e, disk)
  | .ok pages =>
    match w with
    | .success => (.completed outName, disk ++ [(outName, pages)])
    | .openFail m => (.failed m, disk)
    | .failAfter k m => (.failed m, disk ++ [(outName, pages.take k)])

/-- `action_merge` (lines 160–166) followed by the spawned `_do_merge`
when one is started: an empty collection rings the bell and starts no
job; otherwise a job runs on a copy of `files`.  Returns the delivered
result (if a job ran), the disk after, the live collection after, and
whether the bell rang. -/
def merge_flow (readDoc : String → Except String (List α))
    (w : WriteOutcome) (outName : String) (files : List String)
    (disk : List (String × List α)) :
    Option (MergeResult α) × List (String × List α) × List String × Bool :=
  if files.isEmpty then (none, disk, files, true)
  else
    let r := do_merge readDoc w outName files disk
    (some r.1, r.2, files, false)

/-! ## Operation sequences over the collection (for the absoluteness
invariant) -/

/-- One user-level operation that can change the collection. -/
inductive CollOp where
  | paste (isDirAbs : String → Bool) (txt : String)
  | moveUp (index : Option Int)
  | moveDown (index : Option Int)
  | load (content : FileRead) (pathExists : String → Bool)

/-- Apply one operation to the state.  A raising reorder leaves the
state unchanged (the exception escapes before any assignment).  `load`
changes only `files`. -/
def stepOp (st : PasteState) : CollOp → PasteState
  | .paste d t => on_paste d t st
  | .moveUp i =>
    match action_move_up st.files i with
    | .ok (f, _) => { st with files := f }
    | .exn _ => st
  | .moveDown i =>
    match action_move_down st.files i with
    | .ok (f, _) => { st with files := f }
    | .exn _ => st
  | .load c pe => { st with files := (action_load_list c pe st.files).1 }

/-- Apply a sequence of operations, left to right. -/
def stepOps (st : PasteState) : List CollOp → PasteState
  | [] => st
  | op :: ops => stepOps (stepOp st op) ops

/-! ## Theorems -/

/-- The read loop succeeds and concatenates when every document reads. -/
theorem accumulate_ok (readDoc : String → Except String (List α))
    (pagesOf : String → List α) :
    ∀ (paths : List String), (∀ p ∈ paths, readDoc p = .ok (pagesOf p)) →
      accumulate readDoc paths = .ok (paths.map pagesOf).flatten := by
  intro paths
  induction paths with
  | nil => intro _; simp [accumulate]
  | cons p ps ih =>
    intro h
    have hp := h p (by simp)
    have hps : ∀ q ∈ ps, readDoc q = .ok (pagesOf q) := fun q hq =>
      h q (by simp [hq])
    simp [accumulate, hp, ih hps]

/-- **C1**: a merge started on a non-empty snapshot whose documents all
read successfully and whose output write succeeds produces exactly one
output document whose pages are the concatenation of the snapshot's
documents' pages, documents in snapshot order and pages in native
order; the live collection is untouched and no alert rings. -/
theorem merge_concatenates_pages (readDoc : String → Except String (List α))
    (pagesOf : String → List α) (outName : String) (paths : List String)
    (disk : List (String × List α)) (hne : paths ≠ [])
    (hr : ∀ p ∈ paths, readDoc p = .ok (pagesOf p)) :
    merge_flow readDoc .success outName paths disk =
      (some (.completed outName),
       disk ++ [(outName, (paths.map pagesOf).flatten)], paths, false) := by
  have hacc := accumulate_ok readDoc pagesOf paths hr
  have hne' : paths.isEmpty = false := by cases paths <;> simp_all
  simp [merge_flow, hne', do_merge, hacc]

/-- Witness for C1 — the spec's own example: `a` with 2 pages and `b`
with 3 pages merge into one 5-page output in order
a.p1, a.p2, b.p1, b.p2, b.p3. -/
theorem merge_concatenates_pages_witness :
    merge_flow (α := String)
      (fun p => if p = "/a.pdf" then .ok ["a.p1", "a.p2"]
        else if p = "/b.pdf" then .ok ["b.p1", "b.p2", "b.p3"]
        else .error "unreadable")
      .success "combined-20250101000000.pdf" ["/a.pdf", "/b.pdf"] [] =
      (some (.completed "combined-20250101000000.pdf"),
       [("combined-20250101000000.pdf",
         ["a.p1", "a.p2", "b.p1", "b.p2", "b.p3"])],
       ["/a.pdf", "/b.pdf"], false) := by
  have h := merge_concatenates_pages (α := String)
      (fun p => if p = "/a.pdf" then .ok ["a.p1", "a.p2"]
        else if p = "/b.pdf" then .ok ["b.p1", "b.p2", "b.p3"]
        else .error "unreadable")
      (fun p => if p = "/a.pdf" then ["a.p1", "a.p2"]
        else if p = "/b.pdf" then ["b.p1", "b.p2", "b.p3"] else [])
      "combined-20250101000000.pdf" ["/a.pdf", "/b.pdf"] []
      (by decide) (by intro p hp; simp only [List.mem_cons, List.not_mem_nil, or_false] at hp; rcases hp with rfl | rfl <;> rfl)
  simpa using h

/-- Counterexample for C2: when the output-write step fails after the
output file has been opened (here: one of two pages flushed before
`ENOSPC`), the job is reported `Failed` but a partially written output
file remains on disk, contradicting the claim that no partial output
file exists after any failure. -/
theorem merge_write_failure_leaves_partial_file :
    (do_merge (α := String) (fun _ => .ok ["p1", "p2"])
        (.failAfter 1 "No space left on device")
        "combined-20250101000000.pdf" ["/a.pdf"] []).1
      = .failed "No space left on device"
    ∧ (do_merge (α := String) (fun _ => .ok ["p1", "p2"])
        (.failAfter 1 "No space left on device")
        "combined-20250101000000.pdf" ["/a.pdf"] []).2
      = [("combined-20250101000000.pdf", ["p1"])] := by
  constructor <;> rfl

/-- **C2 (amended)**: if any read step fails, the job ends `Failed`
with that error's description, no output file is created and the live
collection is unchanged; if the output write fails, the job also ends
`Failed` with the error's description and the collection is unchanged,
but when the failure strikes after the output file was opened, a
partially written output file remains on disk. -/
theorem merge_failure_behavior (readDoc : String → Except String (List α))
    (outName : String) (files : List String)
    (disk : List (String × List α)) :
    (∀ e w, accumulate readDoc files = .error e →
      merge_flow readDoc w outName files disk
        = (some (.failed e), disk, files, false))
    ∧ (∀ pages m, accumulate readDoc files = .ok pages → files ≠ [] →
      merge_flow readDoc (.openFail m) outName files disk
        = (some (.failed m), disk, files, false))
    ∧ (∀ pages k m, accumulate readDoc files = .ok pages → files ≠ [] →
      merge_flow readDoc (.failAfter k m) outName files disk
        = (some (.failed m), disk ++ [(outName, pages.take k)],
           files, false)) := by
  refine ⟨?_, ?_, ?_⟩
  · intro e w hacc
    have hne : files.isEmpty = false := by
      cases files with
      | nil => simp [accumulate] at hacc
      | cons a l => simp
    cases w <;> simp [merge_flow, hne, do_merge, hacc]
  · intro pages m hacc hne
    have hne' : files.isEmpty = false := by cases files <;> simp_all
    simp [merge_flow, hne', do_merge, hacc]
  · intro pages k m hacc hne
    have hne' : files.isEmpty = false := by cases files <;> simp_all
    simp [merge_flow, hne', do_merge, hacc]

/-- Witness for the amended C2 — the spec's own example: the second of
two documents is unreadable, the job fails naming the failure, no
output file is created, the first document's pages are never written,
and the collection is untouched. -/
theorem merge_failure_behavior_witness :
    merge_flow (α := String)
      (fun p => if p = "/a.pdf" then .ok ["a.p1", "a.p2"]
        else .error "EOF marker not found")
      .success "combined-20250101000000.pdf" ["/a.pdf", "/b.pdf"] [] =
      (some (.failed "EOF marker not found"), [],
       ["/a.pdf", "/b.pdf"], false) :=
  (merge_failure_behavior (α := String)
      (fun p => if p = "/a.pdf" then .ok ["a.p1", "a.p2"]
        else .error "EOF marker not found")
      "combined-20250101000000.pdf" ["/a.pdf", "/b.pdf"] []).1
    "EOF marker not found" .success (by rfl)

/-- **C8**: starting a merge on an empty collection rings the bell and
does nothing else: no job is started, the disk is untouched (so no
output file is ever created) and the collection is unchanged. -/
theorem merge_empty_collection_noop (readDoc : String → Except String (List α))
    (w : WriteOutcome) (outName : String) (files : List String)
    (disk : List (String × List α)) (h : files = []) :
    merge_flow readDoc w outName files disk = (none, disk, files, true) := by
  subst h
  simp [merge_flow]

/-- Witness for C8 at a concrete empty collection. -/
theorem merge_empty_collection_noop_witness :
    merge_flow (α := String) (fun _ => .error "unreadable") .success
      "combined-20250101000000.pdf" [] [] = (none, [], [], true) :=
  merge_empty_collection_noop (α := String) (fun _ => .error "unreadable")
    .success "combined-20250101000000.pdf" [] [] rfl

/-- **C3**: a load that finds the file missing or unparsable, or that
lists at least one path absent from disk, leaves the collection exactly
as it was — and in the missing-path case the status text contains the
base name of the first missing entry; only when every listed path
exists is the collection replaced by the full loaded list. -/
theorem load_all_or_nothing (content : FileRead) (pathExists : String → Bool)
    (files : List String) :
    (content = .missing ∨ content = .notJson →
      (action_load_list content pathExists files).1 = files)
    ∧ (∀ loaded m ms, content = .arr loaded →
        loaded.filter (fun p => !pathExists p) = m :: ms →
        (action_load_list content pathExists files).1 = files
        ∧ ∃ pre post, (action_load_list content pathExists files).2
            = pre ++ basename m ++ post)
    ∧ (∀ loaded, content = .arr loaded →
        (∀ p ∈ loaded, pathExists p = true) →
        action_load_list content pathExists files
          = (loaded, "Loaded: " ++ JSON_FILE)) := by
  refine ⟨?_, ?_, ?_⟩
  · rintro (rfl | rfl) <;> rfl
  · rintro loaded m ms rfl hfil
    exact ⟨by simp [action_load_list, hfil], "Missing: ", "",
      by simp [action_load_list, hfil]⟩
  · rintro loaded rfl hall
    have hfil : loaded.filter (fun p => !pathExists p) = [] := by
      simp only [List.filter_eq_nil_iff]
      intro p hp
      simp [hall p hp]
    simp [action_load_list, hfil]

/-- Witness for C3: a concrete load whose second entry is missing keeps
the collection and names the missing entry's base name, applied through
the theorem. -/
theorem load_all_or_nothing_witness :
    (action_load_list (.arr ["/docs/a.pdf", "/docs/gone.pdf"])
        (fun p => p = "/docs/a.pdf") ["/old.pdf"]).1 = ["/old.pdf"]
    ∧ ∃ pre post,
      (action_load_list (.arr ["/docs/a.pdf", "/docs/gone.pdf"])
        (fun p => p = "/docs/a.pdf") ["/old.pdf"]).2
        = pre ++ basename "/docs/gone.pdf" ++ post :=
  (load_all_or_nothing (.arr ["/docs/a.pdf", "/docs/gone.pdf"])
      (fun p => p = "/docs/a.pdf") ["/old.pdf"]).2.1
    ["/docs/a.pdf", "/docs/gone.pdf"] "/docs/gone.pdf" [] rfl (by decide)

/-- **C4**: saving a collection whose entries all exist on disk and then
loading (no intervening mutation, same working directory, the write
succeeding) replaces the collection with a path sequence identical,
element by element and in order, to the saved one. -/
theorem save_load_round_trip (files old : List String) (stored : FileRead)
    (pathExists : String → Bool)
    (hex : ∀ p ∈ files, pathExists p = true) :
    action_load_list (action_save_list true files stored).1 pathExists old
      = (files, "Loaded: " ++ JSON_FILE) := by
  have hfil : files.filter (fun p => !pathExists p) = [] := by
    simp only [List.filter_eq_nil_iff]
    intro p hp
    simp [hex p hp]
  simp [action_save_list, action_load_list, hfil]

/-- Witness for C4 at a concrete two-element collection. -/
theorem save_load_round_trip_witness :
    action_load_list
        (action_save_list true ["/x/a.pdf", "/x/b.pdf"] .missing).1
        (fun _ => true) [] =
      (["/x/a.pdf", "/x/b.pdf"], "Loaded: " ++ JSON_FILE) :=
  save_load_round_trip ["/x/a.pdf", "/x/b.pdf"] [] .missing (fun _ => true)
    (fun _ _ => rfl)

/-! ### Unfolding equations of the tokenizer scan -/

theorem tokenizeAux_nil : tokenizeAux [] = [] := by rw [tokenizeAux]

theorem tokenizeAux_quoted (cs content rest : List Char)
    (htq : takeToQuote cs = some (content, rest)) (hne : content ≠ []) :
    tokenizeAux ('"' :: cs) = Tok.quoted ⟨content⟩ :: tokenizeAux rest := by
  rw [tokenizeAux, dif_pos rfl]
  split
  · rename_i content' rest' heq
    rw [htq] at heq
    simp only [Option.some.injEq, Prod.mk.injEq] at heq
    obtain ⟨rfl, rfl⟩ := heq
    simp [hne]
  · rename_i heq
    rw [htq] at heq
    simp at heq

theorem tokenizeAux_quoteFail (cs content rest : List Char)
    (htq : takeToQuote cs = some (content, rest)) (he : content = []) :
    tokenizeAux ('"' :: cs) =
      Tok.unquoted ⟨('"' :: cs).takeWhile (fun x => !isPySpace x)⟩ ::
        tokenizeAux (('"' :: cs).dropWhile (fun x => !isPySpace x)) := by
  rw [tokenizeAux, dif_pos rfl]
  split
  · rename_i content' rest' heq
    rw [htq] at heq
    simp only [Option.some.injEq, Prod.mk.injEq] at heq
    obtain ⟨rfl, rfl⟩ := heq
    simp [he]
  · rename_i heq
    rw [htq] at heq

theorem tokenizeAux_noClose (cs : List Char) (htq : takeToQuote cs = none) :
    tokenizeAux ('"' :: cs) =
      Tok.unquoted ⟨('"' :: cs).takeWhile (fun x => !isPySpace x)⟩ ::
        tokenizeAux (('"' :: cs).dropWhile (fun x => !isPySpace x)) := by
  rw [tokenizeAux, dif_pos rfl]
  split
  · rename_i content' rest' heq
    rw [htq] at heq
    simp at heq
  · rfl

theorem tokenizeAux_space (c : Char) (cs : List Char) (hc : c ≠ '"')
    (hs : isPySpace c = true) : tokenizeAux (c :: cs) = tokenizeAux cs := by
  rw [tokenizeAux, dif_neg hc, if_pos hs]

theorem tokenizeAux_run (c : Char) (cs : List Char) (hc : c ≠ '"')
    (hs : isPySpace c = false) :
    tokenizeAux (c :: cs) =
      Tok.unquoted ⟨(c :: cs).takeWhile (fun x => !isPySpace x)⟩ ::
        tokenizeAux ((c :: cs).dropWhile (fun x => !isPySpace x)) := by
  rw [tokenizeAux, dif_neg hc, if_neg (by simp [hs])]

/-- Every quoted token the scan produces is verbatim the text standing
between a pair of double quotes in the input, is quote-free and is
non-empty. -/
theorem quoted_token_decomp : ∀ (l : List Char) (s : String),
    Tok.quoted s ∈ tokenizeAux l →
    ∃ pre post, l = pre ++ '"' :: (s.data ++ '"' :: post)
      ∧ '"' ∉ s.data ∧ s.data ≠ [] := by
  intro l
  induction l using tokenizeAux.induct with
  | case1 =>
    intro s h
    rw [tokenizeAux_nil] at h
    simp at h
  | case2 cs content rest htq he ih =>
    intro s h
    rw [tokenizeAux_quoteFail cs content rest htq (by simpa using he)] at h
    rcases List.mem_cons.mp h with h1 | h1
    · simp at h1
    · obtain ⟨pre, post, hdec, hq, hne⟩ := ih s h1
      refine ⟨('"' :: cs).takeWhile (fun x => !isPySpace x) ++ pre, post,
        ?_, hq, hne⟩
      conv_lhs => rw [← List.takeWhile_append_dropWhile
        (p := fun x => !isPySpace x) (l := '"' :: cs)]
      rw [hdec]
      simp [List.append_assoc]
  | case3 cs content rest htq he ih =>
    intro s h
    rw [tokenizeAux_quoted cs content rest htq (by simpa using he)] at h
    rcases List.mem_cons.mp h with h1 | h1
    · obtain rfl : s = ⟨content⟩ := by simpa using h1
      obtain ⟨hcs, hq⟩ := takeToQuote_spec cs content rest htq
      refine ⟨[], rest, ?_, ?_, ?_⟩
      · simp [hcs]
      · simpa using hq
      · simpa using he
    · obtain ⟨pre, post, hdec, hq, hne⟩ := ih s h1
      obtain ⟨hcs, -⟩ := takeToQuote_spec cs content rest htq
      refine ⟨'"' :: (content ++ '"' :: pre), post, ?_, hq, hne⟩
      simp [hcs, hdec, List.append_assoc]
  | case4 cs htq ih =>
    intro s h
    rw [tokenizeAux_noClose cs htq] at h
    rcases List.mem_cons.mp h with h1 | h1
    · simp at h1
    · obtain ⟨pre, post, hdec, hq, hne⟩ := ih s h1
      refine ⟨('"' :: cs).takeWhile (fun x => !isPySpace x) ++ pre, post,
        ?_, hq, hne⟩
      conv_lhs => rw [← List.takeWhile_append_dropWhile
        (p := fun x => !isPySpace x) (l := '"' :: cs)]
      rw [hdec]
      simp [List.append_assoc]
  | case5 c cs hc hs ih =>
    intro s h
    rw [tokenizeAux_space c cs hc hs] at h
    obtain ⟨pre, post, hdec, hq, hne⟩ := ih s h
    exact ⟨c :: pre, post, by simp [hdec], hq, hne⟩
  | case6 c cs hc hs ih =>
    intro s h
    rw [tokenizeAux_run c cs hc (by simpa using hs)] at h
    rcases List.mem_cons.mp h with h1 | h1
    · simp at h1
    · obtain ⟨pre, post, hdec, hq, hne⟩ := ih s h1
      refine ⟨(c :: cs).takeWhile (fun x => !isPySpace x) ++ pre, post,
        ?_, hq, hne⟩
      conv_lhs => rw [← List.takeWhile_append_dropWhile
        (p := fun x => !isPySpace x) (l := c :: cs)]
      rw [hdec]
      simp [List.append_assoc]

/-- `takeToQuote` finds exactly the quote closing a quote-free run. -/
theorem takeToQuote_append (content rest : List Char) (hq : '"' ∉ content) :
    takeToQuote (content ++ '"' :: rest) = some (content, rest) := by
  induction content with
  | nil => simp [takeToQuote]
  | cons c cs ih =>
    have hc : ¬c = '"' := by
      intro h
      exact hq (by simp [h])
    have hq' : '"' ∉ cs := fun hmem => hq (List.mem_cons_of_mem c hmem)
    simp [takeToQuote, hc, ih hq']

/-- **C9**: quote round-trip.  (1) Every quoted token the tokenizer
produces — whitespace inside or not — is recovered verbatim as the
exact substring standing between a pair of double quotes of the input.
(2) Precedence: at a scan position opening a well-formed quoted group,
the quoted rule wins over the unquoted maximal-non-whitespace rule and
consumes exactly the group. -/
theorem tokenizer_quote_round_trip :
    (∀ (l : List Char) (s : String), Tok.quoted s ∈ tokenizeAux l →
        ∃ pre post, l = pre ++ '"' :: (s.data ++ '"' :: post)
          ∧ '"' ∉ s.data ∧ s.data ≠ [])
    ∧ (∀ (content rest : List Char), content ≠ [] → '"' ∉ content →
        tokenizeAux ('"' :: (content ++ '"' :: rest)) =
          Tok.quoted ⟨content⟩ :: tokenizeAux rest) :=
  ⟨quoted_token_decomp, fun content rest hne hq =>
    tokenizeAux_quoted _ content rest (takeToQuote_append content rest hq) hne⟩

/-- Witness for C9 at the concrete input `"a b" c`: the quoted token
`a b` (internal whitespace) is scanned off verbatim with the quoted
rule taking precedence. -/
theorem tokenizer_quote_round_trip_witness :
    tokenizeAux ('"' :: (['a', ' ', 'b'] ++ '"' :: [' ', 'c'])) =
      Tok.quoted ⟨['a', ' ', 'b']⟩ :: tokenizeAux [' ', 'c'] :=
  tokenizer_quote_round_trip.2 ['a', ' ', 'b'] [' ', 'c'] (by decide)
    (by decide)

/-! ### Reorder lemmas -/

theorem pyIdx_nat (n : Nat) (k : Nat) (hk : k < n) :
    pyIdx n (k : Int) = some k := by
  simp [pyIdx, hk]

/-- A Python swap at two valid non-negative indices succeeds and
performs the two assignments. -/
theorem pySwap_ok (l : List String) (a b : Nat) (ha : a < l.length)
    (hb : b < l.length) :
    pySwap l (a : Int) (b : Int) = .ok ((l.set a l[b]).set b l[a]) := by
  have hga : pyGet l (a : Int) = some l[a] := by
    simp [pyGet, pyIdx_nat l.length a ha, List.get?_eq_getElem?,
      List.getElem?_eq_getElem ha]
  have hgb : pyGet l (b : Int) = some l[b] := by
    simp [pyGet, pyIdx_nat l.length b hb, List.get?_eq_getElem?,
      List.getElem?_eq_getElem hb]
  simp [pySwap, hga, hgb, pySet, pyIdx_nat l.length a ha,
    pyIdx_nat l.length b hb]

/-- Swapping two distinct valid entries and then swapping them back
restores the list. -/
theorem pySwap_twice (l : List String) (a b : Nat) (ha : a < l.length)
    (hb : b < l.length) (hab : a ≠ b) (g : List String)
    (hg : pySwap l (a : Int) (b : Int) = .ok g) :
    pySwap g (b : Int) (a : Int) = .ok l := by
  rw [pySwap_ok l a b ha hb] at hg
  have hgdef : g = (l.set a l[b]).set b l[a] := by
    cases hg
    rfl
  subst hgdef
  rw [pySwap_ok _ b a (by simp [hb]) (by simp [ha])]
  congr 1
  apply List.ext_getElem
  · simp
  · intro j hj1 hj2
    simp only [List.getElem_set]
    split_ifs <;> simp_all

/-- **C7**: in the interior, `move_up` at `i` followed by `move_down`
at the returned index `i-1` restores the original collection and
selection, and symmetrically `move_down` then `move_up`; at the
boundaries (`i ≤ 0` for `move_up`, `i` the last valid index for
`move_down`) the boundary operation is a no-op leaving collection and
selection unchanged. -/
theorem reorder_inverse (files : List String) (i : Int) :
    (0 < i → i < (files.length : Int) →
      ∃ f', action_move_up files (some i) = .ok (f', some (i - 1))
        ∧ action_move_down f' (some (i - 1)) = .ok (files, some i))
    ∧ (0 ≤ i → i < (files.length : Int) - 1 →
      ∃ f', action_move_down files (some i) = .ok (f', some (i + 1))
        ∧ action_move_up f' (some (i + 1)) = .ok (files, some i))
    ∧ (i ≤ 0 → action_move_up files (some i) = .ok (files, some i))
    ∧ (i = (files.length : Int) - 1 →
      action_move_down files (some i) = .ok (files, some i)) := by
  refine ⟨?_, ?_, ?_, ?_⟩
  · intro h0 hlen
    obtain ⟨n, rfl⟩ : ∃ n : Nat, i = (n : Int) := ⟨i.toNat, by omega⟩
    have h1 : 1 ≤ n := by exact_mod_cast h0
    have h2 : n < files.length := by exact_mod_cast hlen
    have hm1 : ((n : Int) - 1) = ((n - 1 : Nat) : Int) := by omega
    have hswap := pySwap_ok files (n - 1) n (by omega) h2
    refine ⟨(files.set (n - 1) files[n]).set n files[n - 1], ?_, ?_⟩
    · simp only [action_move_up]
      rw [if_pos (by exact_mod_cast h0)]
      simp only [hm1]
      rw [hswap]
    · have hlg : ((files.set (n - 1) files[n]).set n files[n - 1]).length
          = files.length := by simp
      simp only [action_move_down]
      rw [if_pos (by rw [hlg]; omega)]
      have hadd : (((n - 1 : Nat) : Int) + 1) = (n : Int) := by omega
      simp only [hm1, hadd]
      rw [pySwap_twice files (n - 1) n (by omega) h2 (by omega) _ hswap]
  · intro h0 hlen
    obtain ⟨n, rfl⟩ : ∃ n : Nat, i = (n : Int) := ⟨i.toNat, by omega⟩
    have h2 : n + 1 < files.length := by exact_mod_cast (by omega : (n : Int) + 1 < (files.length : Int))
    have hm1 : ((n : Int) + 1) = ((n + 1 : Nat) : Int) := by omega
    have hswap := pySwap_ok files (n + 1) n h2 (by omega)
    refine ⟨(files.set (n + 1) files[n]).set n files[n + 1], ?_, ?_⟩
    · simp only [action_move_down]
      rw [if_pos (by exact_mod_cast hlen)]
      simp only [hm1]
      rw [hswap]
    · have hlg : ((files.set (n + 1) files[n]).set n files[n + 1]).length
          = files.length := by simp
      simp only [action_move_up]
      rw [if_pos (by omega)]
      have hsub : (((n + 1 : Nat) : Int) - 1) = (n : Int) := by omega
      simp only [hm1, hsub]
      rw [pySwap_twice files (n + 1) n h2 (by omega) (by omega) _ hswap]
  · intro h0
    simp only [action_move_up]
    rw [if_neg (by omega)]
  · intro hlast
    simp only [action_move_down]
    rw [if_neg (by omega)]

/-- Witness for C7 at the concrete collection `[a, b, c]` and selected
index 1: up then down restores the order, and the boundary no-ops hold
at 0 and 2. -/
theorem reorder_inverse_witness :
    (∃ f', action_move_up ["/a.pdf", "/b.pdf", "/c.pdf"] (some 1)
        = .ok (f', some 0)
      ∧ action_move_down f' (some 0)
        = .ok (["/a.pdf", "/b.pdf", "/c.pdf"], some 1))
    ∧ action_move_up ["/a.pdf", "/b.pdf", "/c.pdf"] (some 0)
        = .ok (["/a.pdf", "/b.pdf", "/c.pdf"], some 0)
    ∧ action_move_down ["/a.pdf", "/b.pdf", "/c.pdf"] (some 2)
        = .ok (["/a.pdf", "/b.pdf", "/c.pdf"], some 2) :=
  ⟨by
      have h := (reorder_inverse ["/a.pdf", "/b.pdf", "/c.pdf"] 1).1
        (by norm_num) (by norm_num)
      simpa using h,
    (reorder_inverse ["/a.pdf", "/b.pdf", "/c.pdf"] 0).2.2.1 (by norm_num),
    (reorder_inverse ["/a.pdf", "/b.pdf", "/c.pdf"] 2).2.2.2 (by norm_num)⟩

/-- **C10**: with no selected index (`lv.index` is `None`, as on an
empty collection) both reorder actions raise a `TypeError` from
comparing `None` with an integer — they are not no-ops; with a valid
selected integer index both actions return normally. -/
theorem reorder_none_index_raises (files : List String) :
    action_move_up files none
      = .exn "TypeError: > not supported between instances of NoneType and int"
    ∧ action_move_down files none
      = .exn "TypeError: < not supported between instances of NoneType and int"
    ∧ (∀ i : Int, 0 ≤ i → i < (files.length : Int) →
        (∃ r, action_move_up files (some i) = .ok r)
        ∧ (∃ r, action_move_down files (some i) = .ok r)) := by
  refine ⟨rfl, rfl, ?_⟩
  intro i h0 hlen
  constructor
  · rcases lt_or_le 0 i with hpos | hnp
    · obtain ⟨f', hup, -⟩ := (reorder_inverse files i).1 hpos hlen
      exact ⟨(f', some (i - 1)), hup⟩
    · exact ⟨(files, some i), (reorder_inverse files i).2.2.1 hnp⟩
  · rcases lt_or_le i ((files.length : Int) - 1) with hlt | hge
    · obtain ⟨f', hdn, -⟩ := (reorder_inverse files i).2.1 h0 hlt
      exact ⟨(f', some (i + 1)), hdn⟩
    · have : i = (files.length : Int) - 1 := by omega
      exact ⟨(files, some i), (reorder_inverse files i).2.2.2 this⟩

/-- Witness for C10 on a concrete one-element collection: `None` raises
in both actions, index 0 is safe for both. -/
theorem reorder_none_index_raises_witness :
    action_move_up ["/a.pdf"] none
      = .exn "TypeError: > not supported between instances of NoneType and int"
    ∧ action_move_down ["/a.pdf"] none
      = .exn "TypeError: < not supported between instances of NoneType and int"
    ∧ ((∃ r, action_move_up ["/a.pdf"] (some 0) = .ok r)
      ∧ (∃ r, action_move_down ["/a.pdf"] (some 0) = .ok r)) :=
  ⟨(reorder_none_index_raises ["/a.pdf"]).1,
    (reorder_none_index_raises ["/a.pdf"]).2.1,
    (reorder_none_index_raises ["/a.pdf"]).2.2 0 (by norm_num) (by norm_num)⟩

/-! ### Absoluteness lemmas -/

theorem isAbs_append (a b : String) (h : isAbs a = true) :
    isAbs (a ++ b) = true := by
  unfold isAbs at h ⊢
  rcases ha : a.data with _ | ⟨c, cs⟩
  · rw [ha] at h
    simp at h
  · rw [ha] at h
    rw [String.data_append, ha]
    simpa using h

theorem abspath_isAbs (cwd p : String) (h : isAbs cwd = true) :
    isAbs (abspath cwd p) = true := by
  by_cases hp : isAbs p
  · simp [abspath, hp]
  · simp only [abspath, hp, Bool.false_eq_true, if_false]
    exact isAbs_append (cwd ++ "/") p (isAbs_append cwd "/" h)

theorem pyGet_mem (l : List String) (i : Int) (v : String)
    (h : pyGet l i = some v) : v ∈ l := by
  unfold pyGet at h
  cases hk : pyIdx l.length i with
  | none => rw [hk] at h; simp at h
  | some k =>
    rw [hk] at h
    simp at h
    exact List.getElem?_mem h

theorem pySet_mem (l f : List String) (i : Int) (v x : String)
    (hs : pySet l i v = some f) (hx : x ∈ f) : x ∈ l ∨ x = v := by
  unfold pySet at hs
  cases hk : pyIdx l.length i with
  | none => rw [hk] at hs; simp at hs
  | some k =>
    rw [hk] at hs
    simp at hs
    subst hs
    exact List.mem_or_eq_of_mem_set hx

/-- The tuple swap only permutes existing entries. -/
theorem pySwap_subset (l : List String) (a b : Int) (f : List String)
    (h : pySwap l a b = .ok f) : ∀ x ∈ f, x ∈ l := by
  unfold pySwap at h
  cases hgb : pyGet l b with
  | none =>
    simp only [hgb] at h
    exact PyResult.noConfusion h
  | some vb =>
    cases hga : pyGet l a with
    | none =>
      simp only [hgb, hga] at h
      exact PyResult.noConfusion h
    | some va =>
      simp only [hgb, hga] at h
      cases hs1 : pySet l a vb with
      | none =>
        simp only [hs1] at h
        exact PyResult.noConfusion h
      | some f1 =>
        simp only [hs1] at h
        cases hs2 : pySet f1 b va with
        | none =>
          simp only [hs2] at h
          exact PyResult.noConfusion h
        | some f2 =>
          simp only [hs2, PyResult.ok.injEq] at h
          obtain rfl := h
          intro x hx
          rcases pySet_mem f1 _ b va x hs2 hx with h1 | hxa
          · rcases pySet_mem l f1 a vb x hs1 h1 with h2 | hxb
            · exact h2
            · rw [hxb]
              exact pyGet_mem l b vb hgb
          · rw [hxa]
            exact pyGet_mem l a va hga

theorem move_up_mem (l : List String) (idx : Option Int) (f : List String)
    (j : Option Int) (h : action_move_up l idx = .ok (f, j)) :
    ∀ x ∈ f, x ∈ l := by
  cases idx with
  | none => exact absurd h (by simp [action_move_up])
  | some i =>
    simp only [action_move_up] at h
    by_cases hi : 0 < i
    · rw [if_pos hi] at h
      cases hsw : pySwap l (i - 1) i with
      | ok f2 =>
        rw [hsw] at h
        simp only [PyResult.ok.injEq, Prod.mk.injEq] at h
        obtain ⟨rfl, -⟩ := h
        exact pySwap_subset l (i - 1) i _ hsw
      | exn m => rw [hsw] at h; exact absurd h (by simp)
    · rw [if_neg hi] at h
      simp only [PyResult.ok.injEq, Prod.mk.injEq] at h
      obtain ⟨rfl, -⟩ := h
      exact fun x hx => hx

theorem move_down_mem (l : List String) (idx : Option Int) (f : List String)
    (j : Option Int) (h : action_move_down l idx = .ok (f, j)) :
    ∀ x ∈ f, x ∈ l := by
  cases idx with
  | none => exact absurd h (by simp [action_move_down])
  | some i =>
    simp only [action_move_down] at h
    by_cases hi : i < (l.length : Int) - 1
    · rw [if_pos hi] at h
      cases hsw : pySwap l (i + 1) i with
      | ok f2 =>
        rw [hsw] at h
        simp only [PyResult.ok.injEq, Prod.mk.injEq] at h
        obtain ⟨rfl, -⟩ := h
        exact pySwap_subset l (i + 1) i _ hsw
      | exn m => rw [hsw] at h; exact absurd h (by simp)
    · rw [if_neg hi] at h
      simp only [PyResult.ok.injEq, Prod.mk.injEq] at h
      obtain ⟨rfl, -⟩ := h
      exact fun x hx => hx

/-- The constraint under which `load` preserves absoluteness: the
persisted file's entries are all absolute (the PersistedList
interface's format). -/
def CollOp.loadsAbs : CollOp → Prop
  | .load (.arr l) _ => ∀ p ∈ l, isAbs p = true
  | _ => True

theorem stepOp_preserves_abs (st : PasteState) (op : CollOp)
    (hcwd : isAbs st.cwd = true) (hfiles : ∀ p ∈ st.files, isAbs p = true)
    (hop : op.loadsAbs) :
    isAbs (stepOp st op).cwd = true
    ∧ ∀ p ∈ (stepOp st op).files, isAbs p = true := by
  cases op with
  | paste d t =>
    simp only [stepOp, on_paste]
    by_cases he : (pyTokens t).isEmpty
    · simp only [he, if_true]
      exact ⟨hcwd, hfiles⟩
    · simp only [he, Bool.false_eq_true, if_false]
      cases hml : ((pyTokens t).filter
          (fun u => d (abspath st.cwd u))).getLast? with
      | none =>
        simp only [hml]
        refine ⟨hcwd, ?_⟩
        intro p hp
        rcases List.mem_append.mp hp with hp1 | hp1
        · exact hfiles p hp1
        · obtain ⟨u, -, rfl⟩ := List.mem_map.mp hp1
          exact abspath_isAbs st.cwd u hcwd
      | some last =>
        simp only [hml]
        refine ⟨abspath_isAbs st.cwd last hcwd, ?_⟩
        intro p hp
        rcases List.mem_append.mp hp with hp1 | hp1
        · exact hfiles p hp1
        · obtain ⟨u, -, rfl⟩ := List.mem_map.mp hp1
          exact abspath_isAbs _ u (abspath_isAbs st.cwd last hcwd)
  | moveUp i =>
    simp only [stepOp]
    cases hm : action_move_up st.files i with
    | ok r =>
      refine ⟨hcwd, ?_⟩
      intro x hx
      exact hfiles x (move_up_mem st.files i r.1 r.2 (by rw [hm]) x hx)
    | exn m => exact ⟨hcwd, hfiles⟩
  | moveDown i =>
    simp only [stepOp]
    cases hm : action_move_down st.files i with
    | ok r =>
      refine ⟨hcwd, ?_⟩
      intro x hx
      exact hfiles x (move_down_mem st.files i r.1 r.2 (by rw [hm]) x hx)
    | exn m => exact ⟨hcwd, hfiles⟩
  | load c pe =>
    refine ⟨hcwd, ?_⟩
    simp only [stepOp]
    cases c with
    | missing => simpa [action_load_list] using hfiles
    | notJson => simpa [action_load_list] using hfiles
    | arr loaded =>
      simp only [action_load_list]
      cases hf : loaded.filter (fun p => !pe p) with
      | nil => simpa using hop
      | cons m ms => simpa using hfiles

/-- Counterexample for C5: `load` replaces the collection with the
file's contents verbatim — it never normalizes them — so a persisted
list containing a relative path that exists on disk puts a
non-absolute entry into the collection. -/
theorem load_injects_relative_path :
    (stepOps ⟨"/home/user", []⟩
        [CollOp.load (.arr ["rel.pdf"]) (fun _ => true)]).files = ["rel.pdf"]
    ∧ isAbs "rel.pdf" = false :=
  ⟨rfl, by decide⟩

/-- **C5 (amended)**: starting from a state with an absolute working
directory and only absolute collection entries (as at process start:
empty collection, `os.getcwd()`), after any sequence of paste
ingestion, swap reordering and loads whose persisted entries are all
absolute, every entry of the collection is an absolute path.  (Paste
ingestion normalizes; `load` preserves the invariant only because its
input is constrained.) -/
theorem collection_always_absolute (ops : List CollOp) :
    ∀ (st : PasteState), isAbs st.cwd = true →
      (∀ p ∈ st.files, isAbs p = true) →
      (∀ op ∈ ops, op.loadsAbs) →
      ∀ p ∈ (stepOps st ops).files, isAbs p = true := by
  induction ops with
  | nil =>
    intro st _ h2 _
    simpa [stepOps] using h2
  | cons op ops ih =>
    intro st h1 h2 h3
    obtain ⟨hc, hf⟩ := stepOp_preserves_abs st op h1 h2 (h3 op (by simp))
    exact ih (stepOp st op) hc hf (fun o ho => h3 o (by simp [ho]))

/-- Witness for the amended C5 on a concrete run: after an
all-absolute load and a reorder starting from `/home` with one
absolute entry, the resulting collection is exactly
`[/c.pdf, /b.pdf]` and its entries are absolute (the latter two facts
obtained through the invariant theorem). -/
theorem collection_always_absolute_witness :
    (stepOps ⟨"/home", ["/a.pdf"]⟩
        [CollOp.load (.arr ["/b.pdf", "/c.pdf"]) (fun _ => true),
         CollOp.moveUp (some 1)]).files = ["/c.pdf", "/b.pdf"]
    ∧ isAbs "/c.pdf" = true ∧ isAbs "/b.pdf" = true :=
  ⟨by decide,
    collection_always_absolute
      [CollOp.load (.arr ["/b.pdf", "/c.pdf"]) (fun _ => true),
       CollOp.moveUp (some 1)] ⟨"/home", ["/a.pdf"]⟩ (by decide)
      (by
        intro p hp
        simp only [List.mem_singleton] at hp
        subst hp
        decide)
      (by
        intro op hop
        simp only [List.mem_cons, List.not_mem_nil, or_false] at hop
        rcases hop with rfl | rfl
        · intro p hp
          simp only [List.mem_cons, List.not_mem_nil, or_false] at hp
          rcases hp with rfl | rfl <;> decide
        · trivial)
      "/c.pdf" (by decide),
    collection_always_absolute
      [CollOp.load (.arr ["/b.pdf", "/c.pdf"]) (fun _ => true),
       CollOp.moveUp (some 1)] ⟨"/home", ["/a.pdf"]⟩ (by decide)
      (by
        intro p hp
        simp only [List.mem_singleton] at hp
        subst hp
        decide)
      (by
        intro op hop
        simp only [List.mem_cons, List.not_mem_nil, or_false] at hop
        rcases hop with rfl | rfl
        · intro p hp
          simp only [List.mem_cons, List.not_mem_nil, or_false] at hp
          rcases hp with rfl | rfl <;> decide
        · trivial)
      "/b.pdf" (by decide)⟩

/-- **C6**: when the pasted tokens contain at least one token naming an
existing directory (checked against the working directory at paste
time), the working directory becomes the last such token (resolved
against the old one), every directory token is removed from the stream
before document filtering, and the surviving `.pdf` tokens are still
appended — normalized against the working directory *after* the
switch. -/
theorem paste_directory_switch (isDirAbs : String → Bool) (txt : String)
    (st : PasteState) (d : String)
    (hd : ((pyTokens txt).filter
        (fun t => isDirAbs (abspath st.cwd t))).getLast? = some d) :
    (on_paste isDirAbs txt st).cwd = abspath st.cwd d
    ∧ (on_paste isDirAbs txt st).files = st.files ++
        ((((pyTokens txt).filter (fun t =>
            !((pyTokens txt).filter
              (fun u => isDirAbs (abspath st.cwd u))).contains t)).filter
          isPdfName).map (abspath (abspath st.cwd d))) := by
  have htok : (pyTokens txt).isEmpty = false := by
    rcases hx : pyTokens txt with _ | ⟨a, l⟩
    · rw [hx] at hd
      simp at hd
    · simp
  have hdirne : ((pyTokens txt).filter
      (fun t => isDirAbs (abspath st.cwd t))).isEmpty = false := by
    rcases hx : (pyTokens txt).filter (fun t => isDirAbs (abspath st.cwd t))
      with _ | ⟨a, l⟩
    · rw [hx] at hd
      simp at hd
    · simp
  constructor
  · simp only [on_paste, htok, Bool.false_eq_true, if_false, hd, hdirne]
  · simp only [on_paste, htok, Bool.false_eq_true, if_false, hd, hdirne]

/-- Witness for C6 on the concrete paste `d x.pdf` in `/home`, where
`/home/d` is the only directory: the working directory switches to
`/home/d` and `x.pdf` is ingested as `/home/d/x.pdf` — normalized
against the directory *after* the switch. -/
theorem paste_directory_switch_witness :
    (on_paste (fun p => p = "/home/d") "d x.pdf"
        ⟨"/home", []⟩).cwd = "/home/d"
    ∧ (on_paste (fun p => p = "/home/d") "d x.pdf"
        ⟨"/home", []⟩).files = ["/home/d/x.pdf"] := by
  have h := paste_directory_switch (fun p => p = "/home/d") "d x.pdf"
    ⟨"/home", []⟩ "d"
    (by
      simp [pyTokens, pyStrip, tokenizeAux, takeToQuote, isPySpace, Tok.text,
        abspath, isAbs])
  simpa [pyTokens, pyStrip, tokenizeAux, takeToQuote, isPySpace, Tok.text,
    abspath, isAbs, isPdfName, List.isSuffixOf] using h

end CombinePdf
